import Mathlib

/-!
Verification of the HTTP client core of `muslimkit` (`src/network/connection.c`).

C strings are modelled as NUL-free `List Char`; a pointer into a string is the
suffix it points at, and reading past the terminator is modelled as reading the
terminator (the decoder additionally records, in a separate counter, how many
bytes each `memcpy` was *asked* to copy, so out-of-bounds requests stay
observable).  Machine integers are `Int`/`Nat`; the `uint8_t status` field of
`struct http_response` is modelled as the value modulo 256, as the C integer
conversion prescribes.
-/

/-- Model of C `isspace` for the default locale (space, \t, \n, \v, \f, \r),
as consulted by `strtol`/`atoi` when skipping leading whitespace. -/
def isSpaceC (c : Char) : Bool :=
  c.toNat = 32 || c.toNat = 9 || c.toNat = 10 || c.toNat = 11 || c.toNat = 12 || c.toNat = 13

/-- Model of C `isdigit`. -/
def isDigitC (c : Char) : Bool :=
  48 ≤ c.toNat && c.toNat ≤ 57

/-- Hexadecimal digit recognizer: 0-9, a-f, A-F, as accepted by `strtol` with base 16. -/
def isHexDigitC (c : Char) : Bool :=
  (48 ≤ c.toNat && c.toNat ≤ 57) || (97 ≤ c.toNat && c.toNat ≤ 102) ||
    (65 ≤ c.toNat && c.toNat ≤ 70)

/-- Value of a hexadecimal digit character. -/
def hexDigitValC (c : Char) : Nat :=
  if 48 ≤ c.toNat && c.toNat ≤ 57 then c.toNat - 48
  else if 97 ≤ c.toNat && c.toNat ≤ 102 then c.toNat - 87
  else if 65 ≤ c.toNat && c.toNat ≤ 70 then c.toNat - 55
  else 0

/-- Accumulate the value of a run of hexadecimal digit characters. -/
def hexValFold (s : List Char) : Nat :=
  s.foldl (fun a c => a * 16 + hexDigitValC c) 0

/-- Model of `strtol`'s optional `0x`/`0X` marker consumption in base 16: the two
marker characters are consumed only when a hexadecimal digit follows them. -/
def skip0x (s : List Char) : List Char :=
  if s.headD ' ' = '0' ∧ ((s.drop 1).headD ' ' = 'x' ∨ (s.drop 1).headD ' ' = 'X') ∧
      isHexDigitC ((s.drop 2).headD ' ') = true then s.drop 2
  else s

/-- Model of C `strtol(p, _, 16)`: skip whitespace, optional sign, optional `0x`,
then the value of the leading run of hexadecimal digits (0 when there is none).
Only the returned value is modelled; `connection.c` never uses the end pointer. -/
def strtolHexVal (s : List Char) : Int :=
  let s1 := s.dropWhile isSpaceC
  if s1.headD 'z' = '-' then - Int.ofNat (hexValFold ((skip0x (s1.drop 1)).takeWhile isHexDigitC))
  else if s1.headD 'z' = '+' then Int.ofNat (hexValFold ((skip0x (s1.drop 1)).takeWhile isHexDigitC))
  else Int.ofNat (hexValFold ((skip0x s1).takeWhile isHexDigitC))

/-- Model of C `atoi`: skip whitespace, optional sign, value of the leading run
of decimal digits (0 when there is none). -/
def atoiModel (s : List Char) : Int :=
  let s1 := s.dropWhile isSpaceC
  if s1.headD 'z' = '-' then
    - Int.ofNat (((s1.drop 1).takeWhile isDigitC).foldl (fun a c => a * 10 + (c.toNat - 48)) 0)
  else if s1.headD 'z' = '+' then
    Int.ofNat (((s1.drop 1).takeWhile isDigitC).foldl (fun a c => a * 10 + (c.toNat - 48)) 0)
  else
    Int.ofNat ((s1.takeWhile isDigitC).foldl (fun a c => a * 10 + (c.toNat - 48)) 0)

/-- Model of C `strchr`: index of the first occurrence of `ch` in the string,
`none` when absent (the NUL terminator is the end of the list). -/
def strchrIdx : List Char → Char → Option Nat
  | [], _ => none
  | a :: rest, ch => if a = ch then some 0 else (strchrIdx rest ch).map (· + 1)

/-- Model of C `strstr`: index of the first occurrence of `pat` as a contiguous
substring of `hay`, `none` when absent. -/
def strstrIdx : List Char → List Char → Option Nat
  | [], pat => if pat = [] then some 0 else none
  | a :: rest, pat =>
    if (a :: rest).take pat.length = pat then some 0
    else (strstrIdx rest pat).map (· + 1)

/-- The loop guard of the chunked decoder's skip loop: `*p == '\r' || *p == '\n'`. -/
def crlfB (c : Char) : Bool :=
  c = '\r' || c = '\n'

/-- The chunk-terminator skip `if (p[0] == '\r' && p[1] == '\n') p += 2;`. -/
def dropCRLF2 : List Char → List Char
  | '\r' :: '\n' :: r => r
  | s => s

/-- The chunked-decoding loop of `http_response_extract_body` (connection.c:219-239),
as a function of the pointer suffix `p`.  Returns the bytes written to the output
together with the total number of bytes the `memcpy` calls were asked to copy
(the model truncates each copy at the end of the input, but the requested count
is recorded so over-long copy requests remain visible).  `fuel` is an upper bound
on the number of iterations; every iteration strictly shortens `p`, so any fuel
above `p.length` is enough. -/
def chunkedGo : Nat → List Char → List Char → Nat → List Char × Nat
  | 0, _, acc, req => (acc, req)
  | fuel + 1, p, acc, req =>
    if p.isEmpty then (acc, req)
    else
      let p1 := p.dropWhile crlfB
      let sz := strtolHexVal p1
      if sz ≤ 0 then (acc, req)
      else
        match strchrIdx p1 '\n' with
        | none => (acc, req)
        | some k =>
          let p2 := p1.drop (k + 1)
          let n := sz.toNat
          chunkedGo fuel (dropCRLF2 (p2.drop n)) (acc ++ p2.take n) (req + n)

/-- Chunked decode of a raw body (the bytes written to the output buffer). -/
def chunkedDecode (body : List Char) : List Char :=
  (chunkedGo (body.length + 1) body [] 0).1

/-- Total number of bytes the decoder's `memcpy` calls are asked to copy on the
given raw body. -/
def chunkedCopyReq (body : List Char) : Nat :=
  (chunkedGo (body.length + 1) body [] 0).2

/-- The header/body separator `"\r\n\r\n"` searched by `strstr`. -/
def SEP : List Char := [ '\r', '\n', '\r', '\n' ]

/-- The `"Transfer-Encoding: chunked"` marker searched by `strstr`. -/
def TE : List Char := ( "Transfer-Encoding: chunked" ).toList

/-- Model of `http_response_extract_header` (connection.c:136-160): `none` models
the NULL pointer, both as argument and result.  Allocation is assumed to succeed. -/
def http_response_extract_header (raw : Option (List Char)) : Option (List Char) :=
  match raw with
  | none => none
  | some s =>
    match strstrIdx s SEP with
    | none => none
    | some i => some (s.take i)

/-- Model of `http_response_extract_body` (connection.c:191-242).  Note that the
`Transfer-Encoding: chunked` search runs over the whole raw response, exactly as
the C code's `strstr(raw_response, ...)` does. -/
def http_response_extract_body (raw : Option (List Char)) : Option (List Char) :=
  match raw with
  | none => none
  | some s =>
    match strstrIdx s SEP with
    | none => none
    | some i =>
      if strstrIdx s TE = none then some (s.drop (i + 4))
      else some (chunkedDecode (s.drop (i + 4)))

/-- Model of `http_response_status_code` (connection.c:162-189): find the first
two spaces of the whole header string with `strchr`, take at most 3 characters
between them, convert with `atoi`. -/
def http_response_status_code (header : Option (List Char)) : Int :=
  match header with
  | none => -1
  | some h =>
    match strchrIdx h ' ' with
    | none => -1
    | some i1 =>
      match strchrIdx (h.drop (i1 + 1)) ' ' with
      | none => -1
      | some j =>
        atoiModel ((h.drop (i1 + 1)).take (min j 3))

/-- The C int-to-`uint8_t` conversion used when `http_response_extract` assigns
the parsed status to the `uint8_t status` field: value modulo 256. -/
def uint8OfInt (i : Int) : Nat :=
  (i % 256).toNat

/-- Model of `struct http_response` (connection.h): `header` and `body` are
possibly-NULL strings, `status` is the `uint8_t` field. -/
structure HttpResponseS where
  header : Option (List Char)
  body : Option (List Char)
  status : Nat
deriving DecidableEq, Repr

/-- Model of `http_response_extract` (connection.c:244-254). -/
def http_response_extract (raw : Option (List Char)) : HttpResponseS :=
  let h := http_response_extract_header raw
  { header := h
    body := http_response_extract_body raw
    status := uint8OfInt (http_response_status_code h) }

/-- The read-accumulation state of `get` (connection.c:320-351): buffer content,
`total`, and `capacity`. -/
structure AccState where
  response : List Char
  total : Nat
  capacity : Nat
deriving DecidableEq, Repr

/-- One iteration of the accumulation loop for a read of `chunk` bytes:
capacity doubles (or starts at `CHUNK_SIZE = 4096`), and is raised to
`total + rv + 1` when that is still not enough; the read is appended at `total`. -/
def accumStep (st : AccState) (chunk : List Char) : AccState :=
  let rv := chunk.length
  let tmp0 := if st.capacity = 0 then 4096 else st.capacity * 2
  let tmp := if tmp0 ≤ st.total + rv then st.total + rv + 1 else tmp0
  { response := st.response ++ chunk, total := st.total + rv, capacity := tmp }

/-- The whole accumulation loop over a sequence of successful reads. -/
def accumRun (reads : List (List Char)) : AccState :=
  reads.foldl accumStep { response := [], total := 0, capacity := 0 }

/-- Observable socket-lifecycle events of one `get` call. -/
inductive NetEvent where
  | sockCreate (fd : Int)
  | resolve (ok : Bool)
  | sockClose (fd : Int)
deriving DecidableEq, Repr

/-- Environment of one `get` call: outcomes of the external calls, and the
sequence of successful `SSL_read` results (each nonempty; the list ends at the
peer's EOF). -/
structure NetEnv where
  ctxOk : Bool
  sockfd : Int
  resolveOk : Bool
  ptonOk : Bool
  connectOk : Bool
  sslOk : Bool
  writeOk : Bool
  reads : List (List Char)

/-- Observable outcome of one `get` call: return value, socket-event trace,
the raw response handed to `http_response_extract` (`none` while framing was
never reached, `some none` for a NULL raw response), and what was stored in
`*dest` (`none` when `get` left `dest` untouched). -/
structure GetOutcome where
  result : Int
  trace : List NetEvent
  framed : Option (Option (List Char))
  dest : Option HttpResponseS

/-- Model of `fconnect` (connection.c:15-44): result and the events it emits.
`htoip` resolution happens here, after the socket already exists. -/
def fconnectModel (env : NetEnv) : Int × List NetEvent :=
  if env.sockfd < 0 then (-1, [])
  else if env.resolveOk = false then (-1, [ NetEvent.resolve false, NetEvent.sockClose env.sockfd ])
  else if env.ptonOk = false then (-1, [ NetEvent.resolve true, NetEvent.sockClose env.sockfd ])
  else if env.connectOk then (0, [ NetEvent.resolve true ])
  else (-1, [ NetEvent.resolve true ])

/-- The NULL-or-content raw response after the read loop: `get`'s `response`
pointer stays NULL exactly when no read succeeded. -/
def rawOfReads (reads : List (List Char)) : Option (List Char) :=
  if reads = [] then none else some reads.flatten

/-- Model of `get` (connection.c:266-368): `ssl_init`, `fsocket`, `fconnect`
(which resolves), `ssl_connect`, request write, read accumulation, framing. -/
def getModel (env : NetEnv) : GetOutcome :=
  if env.ctxOk = false then { result := -1, trace := [], framed := none, dest := none }
  else
    let ev0 : List NetEvent := if 0 ≤ env.sockfd then [ NetEvent.sockCreate env.sockfd ] else []
    let fc := fconnectModel env
    if fc.1 < 0 then
      { result := -1, trace := ev0 ++ fc.2 ++ [ NetEvent.sockClose env.sockfd ],
        framed := none, dest := none }
    else if env.sslOk = false then
      { result := -1, trace := ev0 ++ fc.2 ++ [ NetEvent.sockClose env.sockfd ],
        framed := none, dest := none }
    else if env.writeOk = false then
      { result := -1, trace := ev0 ++ fc.2 ++ [ NetEvent.sockClose env.sockfd ],
        framed := none, dest := none }
    else
      let raw := rawOfReads env.reads
      let r := http_response_extract raw
      if r.header.isNone && r.body.isNone then
        { result := -1, trace := ev0 ++ fc.2 ++ [ NetEvent.sockClose env.sockfd ],
          framed := some raw, dest := none }
      else
        { result := 0, trace := ev0 ++ fc.2 ++ [ NetEvent.sockClose env.sockfd ],
          framed := some raw, dest := some r }

/-- Hexadecimal digit character for a value below 16 (lowercase, as produced by
printf-style renderings; `strtol` accepts either case). -/
def hexDigitChar : Nat → Char
  | 0 => '0' | 1 => '1' | 2 => '2' | 3 => '3' | 4 => '4' | 5 => '5' | 6 => '6' | 7 => '7'
  | 8 => '8' | 9 => '9' | 10 => 'a' | 11 => 'b' | 12 => 'c' | 13 => 'd' | 14 => 'e'
  | 15 => 'f' | _ => '0'

/-- Fuelled most-significant-first hexadecimal rendering of a natural number. -/
def hexStrGo : Nat → Nat → List Char → List Char
  | 0, _, acc => acc
  | fuel + 1, n, acc =>
    if n < 16 then hexDigitChar n :: acc
    else hexStrGo fuel (n / 16) (hexDigitChar (n % 16) :: acc)

/-- Hexadecimal rendering of a natural number (minimal digits, `0` for zero). -/
def hexStr (n : Nat) : List Char :=
  hexStrGo (n + 1) n []

/-- One well-formed chunk of a chunked transfer encoding: hexadecimal size,
CRLF, exactly that many data bytes, CRLF. -/
def encodeChunk (c : List Char) : List Char :=
  hexStr c.length ++ [ '\r', '\n' ] ++ c ++ [ '\r', '\n' ]

/-- A well-formed chunked raw body: the chunks in order, then the zero-size
terminating chunk `0 CRLF CRLF`. -/
def encodeChunked (chunks : List (List Char)) : List Char :=
  (chunks.map encodeChunk).flatten ++ [ '0', '\r', '\n', '\r', '\n' ]

/-- Allocation-aware model of `http_response_extract_header`: `ok` is the
outcome of the `malloc(header_len + 1)` at connection.c:151, whose failure
branch (connection.c:152-155) returns NULL even though the separator was
found.  With `ok = true` this coincides with `http_response_extract_header`. -/
def http_response_extract_headerA (ok : Bool) (raw : Option (List Char)) : Option (List Char) :=
  match raw with
  | none => none
  | some s =>
    match strstrIdx s SEP with
    | none => none
    | some i => if ok then some (s.take i) else none

/-- Allocation-aware model of `http_response_extract_body`: `ok` is the outcome
of the single allocation on the taken path — the `strndup` at connection.c:207
on the verbatim path, or the output `malloc` at connection.c:211 (failure
branch 212-215) on the chunked path; either failure returns NULL even though
the separator was found.  With `ok = true` this coincides with
`http_response_extract_body`. -/
def http_response_extract_bodyA (ok : Bool) (raw : Option (List Char)) : Option (List Char) :=
  match raw with
  | none => none
  | some s =>
    match strstrIdx s SEP with
    | none => none
    | some i =>
      if ok = false then none
      else if strstrIdx s TE = none then some (s.drop (i + 4))
      else some (chunkedDecode (s.drop (i + 4)))

/-- Allocation-aware model of `http_response_extract` (connection.c:244-254):
`hOk` and `bOk` are the outcomes of the header and body allocations. -/
def http_response_extractA (hOk bOk : Bool) (raw : Option (List Char)) : HttpResponseS :=
  let h := http_response_extract_headerA hOk raw
  { header := h
    body := http_response_extract_bodyA bOk raw
    status := uint8OfInt (http_response_status_code h) }

/-- `NetEnv` extended with the outcomes of the two framing allocations. -/
structure NetEnvA where
  ctxOk : Bool
  sockfd : Int
  resolveOk : Bool
  ptonOk : Bool
  connectOk : Bool
  sslOk : Bool
  writeOk : Bool
  reads : List (List Char)
  headerAllocOk : Bool
  bodyAllocOk : Bool

/-- Forget the allocation outcomes. -/
def NetEnvA.toBase (env : NetEnvA) : NetEnv :=
  { ctxOk := env.ctxOk, sockfd := env.sockfd, resolveOk := env.resolveOk,
    ptonOk := env.ptonOk, connectOk := env.connectOk, sslOk := env.sslOk,
    writeOk := env.writeOk, reads := env.reads }

/-- Model of `get` with the framing allocations made explicit: identical to
`getModel` except that the final stage uses `http_response_extractA`, so the
check `header == NULL && body == NULL` (connection.c:358) sees the
allocation-failure NULLs exactly as the C code does. -/
def getModelA (env : NetEnvA) : GetOutcome :=
  if env.ctxOk = false then { result := -1, trace := [], framed := none, dest := none }
  else
    let ev0 : List NetEvent := if 0 ≤ env.sockfd then [ NetEvent.sockCreate env.sockfd ] else []
    let fc := fconnectModel env.toBase
    if fc.1 < 0 then
      { result := -1, trace := ev0 ++ fc.2 ++ [ NetEvent.sockClose env.sockfd ],
        framed := none, dest := none }
    else if env.sslOk = false then
      { result := -1, trace := ev0 ++ fc.2 ++ [ NetEvent.sockClose env.sockfd ],
        framed := none, dest := none }
    else if env.writeOk = false then
      { result := -1, trace := ev0 ++ fc.2 ++ [ NetEvent.sockClose env.sockfd ],
        framed := none, dest := none }
    else
      let raw := rawOfReads env.reads
      let r := http_response_extractA env.headerAllocOk env.bodyAllocOk raw
      if r.header.isNone && r.body.isNone then
        { result := -1, trace := ev0 ++ fc.2 ++ [ NetEvent.sockClose env.sockfd ],
          framed := some raw, dest := none }
      else
        { result := 0, trace := ev0 ++ fc.2 ++ [ NetEvent.sockClose env.sockfd ],
          framed := some raw, dest := some r }

/-! ### Character-class facts -/

/-- A hexadecimal digit differs from any character that is not one. -/
theorem hex_ne {c d : Char} (h : isHexDigitC c = true) (hd : isHexDigitC d = false) :
    c ≠ d := by
  intro e
  subst e
  simp [h] at hd

/-- Hexadecimal digits are not `strtol` whitespace. -/
theorem hex_not_space {c : Char} (h : isHexDigitC c = true) : isSpaceC c = false := by
  simp only [isHexDigitC, Bool.or_eq_true, Bool.and_eq_true, decide_eq_true_eq] at h
  simp only [isSpaceC, Bool.or_eq_false_iff, decide_eq_false_iff_not]
  omega

/-- Hexadecimal digits are not skipped by the decoder's CR/LF skip loop. -/
theorem hex_not_crlfB {c : Char} (h : isHexDigitC c = true) : crlfB c = false := by
  have h1 : c ≠ '\r' := hex_ne h (by decide)
  have h2 : c ≠ '\n' := hex_ne h (by decide)
  simp [crlfB, h1, h2]

/-! ### strchr lemmas -/

/-- A found index is inside the string. -/
theorem strchrIdx_lt {ch : Char} : ∀ {s : List Char} {k : Nat},
    strchrIdx s ch = some k → k < s.length := by
  intro s
  induction s with
  | nil => intro k h; simp [strchrIdx] at h
  | cons a rest ih =>
    intro k h
    by_cases ha : a = ch
    · simp [strchrIdx, ha] at h
      simp
      omega
    · simp [strchrIdx, ha] at h
      rcases h with ⟨j, hj, rfl⟩
      have := ih hj
      simp
      omega

/-- `strchr` misses exactly when the character does not occur. -/
theorem strchrIdx_none_iff {ch : Char} {s : List Char} :
    strchrIdx s ch = none ↔ ∀ x ∈ s, x ≠ ch := by
  induction s with
  | nil => simp [strchrIdx]
  | cons a rest ih =>
    by_cases ha : a = ch
    · simp [strchrIdx, ha]
    · simp [strchrIdx, ha, ih]

/-- `strchr` on an appended string whose first part misses. -/
theorem strchrIdx_app {ch : Char} {a : List Char} (b : List Char)
    (h : ∀ x ∈ a, x ≠ ch) :
    strchrIdx (a ++ b) ch = (strchrIdx b ch).map (· + a.length) := by
  induction a with
  | nil => cases hb : strchrIdx b ch <;> simp [hb]
  | cons x a ih =>
    have hx : x ≠ ch := h x (by simp)
    have ha : ∀ y ∈ a, y ≠ ch := fun y hy => h y (by simp [hy])
    cases hb : strchrIdx b ch with
    | none => simp [strchrIdx, hx, ih ha, hb]
    | some k =>
      simp [strchrIdx, hx, ih ha, hb]
      omega

/-- Decomposition at the first occurrence: no hit before it, a hit at it. -/
theorem strchrIdx_spec {ch : Char} : ∀ {s : List Char} {i : Nat},
    strchrIdx s ch = some i →
    (∀ x ∈ s.take i, x ≠ ch) ∧ s.drop i = ch :: s.drop (i + 1) := by
  intro s
  induction s with
  | nil => intro i h; simp [strchrIdx] at h
  | cons a rest ih =>
    intro i h
    by_cases ha : a = ch
    · simp [strchrIdx, ha] at h
      subst h
      simp [ha]
    · simp [strchrIdx, ha] at h
      rcases h with ⟨j, hj, rfl⟩
      rcases ih hj with ⟨h1, h2⟩
      constructor
      · intro x hx
        simp [List.take] at hx
        rcases hx with rfl | hx
        · exact ha
        · exact h1 x hx
      · simpa [List.drop] using h2

/-! ### strstr lemmas -/

/-- `strstr` misses exactly when the pattern occurs nowhere as a substring. -/
theorem strstrIdx_none_iff {pat : List Char} (hpat : pat ≠ []) : ∀ {s : List Char},
    strstrIdx s pat = none ↔ ∀ i, (s.drop i).take pat.length ≠ pat := by
  intro s
  induction s with
  | nil =>
    simp [strstrIdx, hpat, Ne.symm hpat]
  | cons a rest ih =>
    by_cases h0 : (a :: rest).take pat.length = pat
    · constructor
      · intro h
        simp [strstrIdx, h0] at h
      · intro h
        exact absurd h0 (by simpa using h 0)
    · constructor
      · intro h i
        simp [strstrIdx, h0] at h
        match i with
        | 0 => simpa using h0
        | j + 1 => exact (ih.mp h) j
      · intro h
        simp [strstrIdx, h0]
        exact ih.mpr fun j => by simpa using h (j + 1)

/-- A found index carries an occurrence of the pattern. -/
theorem strstrIdx_some_occ {pat : List Char} : ∀ {s : List Char} {i : Nat},
    strstrIdx s pat = some i → (s.drop i).take pat.length = pat := by
  intro s
  induction s with
  | nil =>
    intro i h
    by_cases hp : pat = [] <;> simp [strstrIdx, hp] at h
    subst hp
    simp [← h]
  | cons a rest ih =>
    intro i h
    by_cases h0 : (a :: rest).take pat.length = pat
    · simp [strstrIdx, h0] at h
      subst h
      simpa using h0
    · simp [strstrIdx, h0] at h
      rcases h with ⟨j, hj, rfl⟩
      simpa using ih hj

/-! ### Hexadecimal rendering lemmas -/

/-- Digit characters below 16 evaluate back to their value. -/
theorem hexDigitValC_hexDigitChar {d : Nat} (h : d < 16) :
    hexDigitValC (hexDigitChar d) = d := by
  interval_cases d <;> decide

/-- Digit characters below 16 are hexadecimal digits. -/
theorem isHex_hexDigitChar {d : Nat} (h : d < 16) :
    isHexDigitC (hexDigitChar d) = true := by
  interval_cases d <;> decide

/-- The fuelled renderer is fuel-independent once the fuel exceeds the value. -/
theorem hexStrGo_eq : ∀ n : Nat, ∀ fuel acc, n < fuel →
    hexStrGo fuel n acc = hexStr n ++ acc := by
  intro n
  induction n using Nat.strong_induction_on with
  | _ n ih =>
    intro fuel acc hfuel
    match fuel with
    | 0 => omega
    | f + 1 =>
      by_cases h16 : n < 16
      · simp [hexStrGo, h16, hexStr]
      · have hdiv : n / 16 < n := Nat.div_lt_self (by omega) (by omega)
        have hrec := ih (n / 16) hdiv
        simp only [hexStrGo, h16, if_false, hexStr]
        rw [hrec f _ (by omega), hrec n _ (by omega)]
        simp

/-- Unfolding of `hexStr` for values needing more than one digit. -/
theorem hexStr_big {n : Nat} (h : ¬ n < 16) :
    hexStr n = hexStr (n / 16) ++ [ hexDigitChar (n % 16) ] := by
  have hdiv : n / 16 < n := Nat.div_lt_self (by omega) (by omega)
  show hexStrGo (n + 1) n [] = _
  simp only [hexStrGo, h, if_false]
  exact hexStrGo_eq (n / 16) n _ (by omega)

/-- Unfolding of `hexStr` for one-digit values. -/
theorem hexStr_small {n : Nat} (h : n < 16) : hexStr n = [ hexDigitChar n ] := by
  show hexStrGo (n + 1) n [] = _
  simp [hexStrGo, h]

/-- Parsing the rendered hexadecimal digits gives the value back. -/
theorem hexValFold_hexStr : ∀ n : Nat, hexValFold (hexStr n) = n := by
  intro n
  induction n using Nat.strong_induction_on with
  | _ n ih =>
    by_cases h16 : n < 16
    · rw [hexStr_small h16]
      simp [hexValFold, hexDigitValC_hexDigitChar h16]
    · have hdiv : n / 16 < n := Nat.div_lt_self (by omega) (by omega)
      rw [hexStr_big h16]
      simp only [hexValFold, List.foldl_append]
      have : (hexStr (n / 16)).foldl (fun a c => a * 16 + hexDigitValC c) 0 = n / 16 :=
        ih (n / 16) hdiv
      rw [this]
      simp only [List.foldl_cons, List.foldl_nil]
      rw [hexDigitValC_hexDigitChar (Nat.mod_lt n (by omega))]
      omega

/-- Every character of a rendered hexadecimal number is a hexadecimal digit. -/
theorem hexStr_all_hex : ∀ n : Nat, ∀ c ∈ hexStr n, isHexDigitC c = true := by
  intro n
  induction n using Nat.strong_induction_on with
  | _ n ih =>
    intro c hc
    by_cases h16 : n < 16
    · rw [hexStr_small h16] at hc
      simp at hc
      subst hc
      exact isHex_hexDigitChar h16
    · have hdiv : n / 16 < n := Nat.div_lt_self (by omega) (by omega)
      rw [hexStr_big h16] at hc
      simp at hc
      rcases hc with hc | hc
      · exact ih (n / 16) hdiv c hc
      · subst hc
        exact isHex_hexDigitChar (Nat.mod_lt n (by omega))

/-- Rendered hexadecimal numbers are nonempty. -/
theorem hexStr_ne_nil (n : Nat) : hexStr n ≠ [] := by
  by_cases h16 : n < 16
  · rw [hexStr_small h16]
    simp
  · rw [hexStr_big h16]
    simp

/-! ### strtol / takeWhile parse lemmas -/

/-- `takeWhile` of a run of accepted characters followed by a rejected one. -/
theorem takeWhile_app_stop (p : Char → Bool) : ∀ (a : List Char) (x : Char) (b : List Char),
    (∀ c ∈ a, p c = true) → p x = false → ((a ++ x :: b).takeWhile p) = a := by
  intro a
  induction a with
  | nil =>
    intro x b _ hx
    simp [hx]
  | cons y a ih =>
    intro x b ha hx
    have hy : p y = true := ha y (by simp)
    simp only [List.cons_append, List.takeWhile_cons_of_pos hy]
    rw [ih x b (fun c hc => ha c (by simp [hc])) hx]

/-- `dropWhile` keeps a string whose head is rejected. -/
theorem dropWhile_of_head_neg {p : Char → Bool} {x : Char} (xs : List Char)
    (hx : p x = false) : (x :: xs).dropWhile p = x :: xs := by
  simp [List.dropWhile_cons, hx]

/-- `strtol(_, _, 16)` on a nonempty run of hexadecimal digits terminated by CR
parses exactly those digits. -/
theorem strtolHexVal_digits (ds : List Char) (rest : List Char)
    (h1 : ∀ c ∈ ds, isHexDigitC c = true) (h2 : ds ≠ []) :
    strtolHexVal (ds ++ '\r' :: rest) = Int.ofNat (hexValFold ds) := by
  match ds, h2 with
  | d :: ds', _ =>
    have hd : isHexDigitC d = true := h1 d (by simp)
    have hsp : isSpaceC d = false := hex_not_space hd
    have hminus : d ≠ '-' := hex_ne hd (by decide)
    have hplus : d ≠ '+' := hex_ne hd (by decide)
    have hdrop : ((d :: ds') ++ '\r' :: rest).dropWhile isSpaceC = (d :: ds') ++ '\r' :: rest :=
      dropWhile_of_head_neg _ hsp
    have hskip : skip0x ((d :: ds') ++ '\r' :: rest) = (d :: ds') ++ '\r' :: rest := by
      unfold skip0x
      rw [if_neg]
      rintro ⟨-, hx, -⟩
      match ds' with
      | [] =>
        simp at hx
      | e :: ds'' =>
        have he : isHexDigitC e = true := h1 e (by simp)
        simp at hx
        rcases hx with hx | hx
        · exact hex_ne he (by decide) hx
        · exact hex_ne he (by decide) hx
    have htake : (((d :: ds') ++ '\r' :: rest).takeWhile isHexDigitC) = d :: ds' :=
      takeWhile_app_stop isHexDigitC (d :: ds') '\r' rest h1 (by decide)
    unfold strtolHexVal
    simp only [hdrop]
    rw [if_neg (by simpa using hminus), if_neg (by simpa using hplus), hskip, htake]

/-! ### Chunked-decoder loop lemmas -/

/-- The trailing-CRLF skip never lengthens the suffix. -/
theorem dropCRLF2_length_le (s : List Char) : (dropCRLF2 s).length ≤ s.length := by
  unfold dropCRLF2
  split
  · simp
    omega
  · exact Nat.le_refl _

/-- `dropWhile` never lengthens a list. -/
theorem dropWhile_length_le (q : Char → Bool) : ∀ p : List Char,
    (p.dropWhile q).length ≤ p.length := by
  intro p
  induction p with
  | nil => simp
  | cons a rest ih =>
    by_cases ha : q a
    · simp only [List.dropWhile_cons_of_pos ha]
      simp
      omega
    · simp [List.dropWhile_cons_of_neg ha]

/-- Each iteration of the decoding loop strictly shortens the pointer suffix. -/
theorem chunked_next_len_lt {p : List Char} (hp : ¬ p.isEmpty = true) {k : Nat}
    (hk : strchrIdx (p.dropWhile crlfB) '\n' = some k) (n : Nat) :
    (dropCRLF2 (((p.dropWhile crlfB).drop (k + 1)).drop n)).length < p.length := by
  have h1 : (p.dropWhile crlfB).length ≤ p.length := dropWhile_length_le crlfB p
  have h2 : k < (p.dropWhile crlfB).length := strchrIdx_lt hk
  have h3 := dropCRLF2_length_le (((p.dropWhile crlfB).drop (k + 1)).drop n)
  have h4 : (((p.dropWhile crlfB).drop (k + 1)).drop n).length
      = (p.dropWhile crlfB).length - (k + 1) - n := by
    simp
    omega
  have h5 : 1 ≤ p.length := by
    cases p
    · simp at hp
    · simp
  omega

/-- The loop's result does not depend on the fuel once the fuel exceeds the
suffix length. -/
theorem chunkedGo_congr : ∀ f1 : Nat, ∀ {f2 : Nat} {p acc : List Char} {req : Nat},
    p.length < f1 → p.length < f2 →
    chunkedGo f1 p acc req = chunkedGo f2 p acc req := by
  intro f1
  induction f1 with
  | zero => intro f2 p acc req h1 _; omega
  | succ f ih =>
    intro f2 p acc req h1 h2
    match f2, h2 with
    | g + 1, h2 =>
      simp only [chunkedGo]
      by_cases hp : p.isEmpty = true
      · simp [hp]
      · simp only [hp, if_false]
        by_cases hsz : strtolHexVal (p.dropWhile crlfB) ≤ 0
        · simp [hsz]
        · simp only [hsz, if_false]
          cases hk : strchrIdx (p.dropWhile crlfB) '\n' with
          | none => simp
          | some k =>
            simp only []
            have hlt := chunked_next_len_lt hp hk (strtolHexVal (p.dropWhile crlfB)).toNat
            exact ih (by omega) (by omega)

/-- One loop iteration consumes exactly one well-formed chunk: size line, data,
trailing CRLF, appending the payload to the output. -/
theorem chunkedGo_step (c rest acc : List Char) (req : Nat) (fuel : Nat)
    (hc : c ≠ []) :
    chunkedGo (fuel + 1) (encodeChunk c ++ rest) acc req
      = chunkedGo fuel rest (acc ++ c) (req + c.length) := by
  have hnn : hexStr c.length ≠ [] := hexStr_ne_nil _
  have hall : ∀ x ∈ hexStr c.length, isHexDigitC x = true := hexStr_all_hex _
  obtain ⟨d, ds', hds⟩ : ∃ d ds', hexStr c.length = d :: ds' := by
    cases h : hexStr c.length with
    | nil => exact absurd h hnn
    | cons d ds' => exact ⟨d, ds', rfl⟩
  have hd : isHexDigitC d = true := hall d (by rw [hds]; simp)
  have hE : encodeChunk c ++ rest
      = d :: (ds' ++ '\r' :: '\n' :: (c ++ '\r' :: '\n' :: rest)) := by
    simp [encodeChunk, hds]
  have hshape : d :: (ds' ++ '\r' :: '\n' :: (c ++ '\r' :: '\n' :: rest))
      = hexStr c.length ++ '\r' :: ('\n' :: (c ++ '\r' :: '\n' :: rest)) := by
    rw [hds]
    rfl
  have hn1 : 1 ≤ c.length := by
    cases c
    · exact absurd rfl hc
    · simp
  have hdw : (d :: (ds' ++ '\r' :: '\n' :: (c ++ '\r' :: '\n' :: rest))).dropWhile crlfB
      = d :: (ds' ++ '\r' :: '\n' :: (c ++ '\r' :: '\n' :: rest)) :=
    dropWhile_of_head_neg _ (hex_not_crlfB hd)
  have hparse : strtolHexVal (d :: (ds' ++ '\r' :: '\n' :: (c ++ '\r' :: '\n' :: rest)))
      = Int.ofNat c.length := by
    rw [hshape, strtolHexVal_digits _ _ hall hnn, hexValFold_hexStr]
  have hchr : strchrIdx (d :: (ds' ++ '\r' :: '\n' :: (c ++ '\r' :: '\n' :: rest))) '\n'
      = some ((hexStr c.length).length + 1) := by
    rw [hshape, strchrIdx_app _ (fun x hx => hex_ne (hall x hx) (by decide))]
    have hrn : ('\r' : Char) ≠ '\n' := by decide
    simp [strchrIdx, hrn]
    omega
  have hdrop2 : (d :: (ds' ++ '\r' :: '\n' :: (c ++ '\r' :: '\n' :: rest))).drop
      ((hexStr c.length).length + 1 + 1) = c ++ '\r' :: '\n' :: rest := by
    rw [hshape]
    have : (hexStr c.length).length + 1 + 1
        = (hexStr c.length ++ [ '\r', '\n' ]).length := by
      simp
    rw [this]
    have hre : hexStr c.length ++ '\r' :: ('\n' :: (c ++ '\r' :: '\n' :: rest))
        = (hexStr c.length ++ [ '\r', '\n' ]) ++ (c ++ '\r' :: '\n' :: rest) := by
      simp
    rw [hre, List.drop_left]
  have htk : (c ++ '\r' :: '\n' :: rest).take c.length = c := List.take_left c _
  have hdr : (c ++ '\r' :: '\n' :: rest).drop c.length = '\r' :: '\n' :: rest :=
    List.drop_left c _
  rw [hE]
  simp only [chunkedGo]
  rw [if_neg (show ¬ ((d :: (ds' ++ '\r' :: '\n' :: (c ++ '\r' :: '\n' :: rest))).isEmpty
    = true) by simp)]
  rw [hdw, hparse]
  rw [if_neg (show ¬ (Int.ofNat c.length ≤ 0) by simp only [Int.ofNat_eq_coe]; omega)]
  rw [hchr]
  simp only [hdrop2]
  have htn : (Int.ofNat c.length).toNat = c.length := rfl
  rw [htn, htk, hdr]
  have hcr : dropCRLF2 ('\r' :: '\n' :: rest) = rest := rfl
  rw [hcr]

/-- Decoding a well-formed chunked stream appends the concatenated payloads to
the output and requests exactly their total length from `memcpy`. -/
theorem chunkedGo_encodeChunked : ∀ (chunks : List (List Char)) (fuel : Nat)
    (acc : List Char) (req : Nat),
    (∀ c ∈ chunks, c ≠ []) → (encodeChunked chunks).length < fuel →
    chunkedGo fuel (encodeChunked chunks) acc req
      = (acc ++ chunks.flatten, req + chunks.flatten.length) := by
  intro chunks
  induction chunks with
  | nil =>
    intro fuel acc req _ hfuel
    match fuel, hfuel with
    | f + 1, _ =>
      have hterm : encodeChunked [] = [ '0', '\r', '\n', '\r', '\n' ] := rfl
      rw [hterm]
      simp only [chunkedGo]
      rw [if_neg (show ¬ (([ '0', '\r', '\n', '\r', '\n' ] : List Char).isEmpty = true)
        by simp)]
      have hdw : ([ '0', '\r', '\n', '\r', '\n' ] : List Char).dropWhile crlfB
          = [ '0', '\r', '\n', '\r', '\n' ] :=
        dropWhile_of_head_neg _ (by decide)
      rw [hdw]
      have hz : strtolHexVal [ '0', '\r', '\n', '\r', '\n' ] = 0 := by decide
      rw [hz, if_pos (by omega)]
      simp
  | cons c cs ih =>
    intro fuel acc req hne hfuel
    have hEc : encodeChunked (c :: cs) = encodeChunk c ++ encodeChunked cs := by
      simp [encodeChunked]
    match fuel, hfuel with
    | f + 1, hfuel =>
      rw [hEc, chunkedGo_step c (encodeChunked cs) acc req f (hne c (by simp))]
      have hlen1 : 1 ≤ (encodeChunk c).length := by
        have := hexStr_ne_nil c.length
        cases h : hexStr c.length with
        | nil => exact absurd h this
        | cons d ds' => simp [encodeChunk, h]
      have hflen : (encodeChunked cs).length < f := by
        rw [hEc] at hfuel
        simp only [List.length_append] at hfuel
        omega
      rw [ih f (acc ++ c) (req + c.length) (fun x hx => hne x (by simp [hx])) hflen]
      simp [List.append_assoc]
      omega

/-- C5: for every well-formed chunked raw body — chunks of hexadecimal size,
CRLF, exactly that many data bytes, CRLF, ended by a zero-size chunk — the
decoded body is the concatenation of the chunk payloads in order; in particular
`"5\r\nHello\r\n0\r\n\r\n"` decodes to `"Hello"` and
`"3\r\nfoo\r\n3\r\nbar\r\n0\r\n\r\n"` decodes to `"foobar"`. -/
theorem C5_chunked_roundtrip :
    (∀ chunks : List (List Char), (∀ c ∈ chunks, c ≠ []) →
      chunkedDecode (encodeChunked chunks) = chunks.flatten)
    ∧ chunkedDecode (( "5\r\nHello\r\n0\r\n\r\n" ).toList) = ( "Hello" ).toList
    ∧ chunkedDecode (( "3\r\nfoo\r\n3\r\nbar\r\n0\r\n\r\n" ).toList) = ( "foobar" ).toList := by
  refine ⟨fun chunks h => ?_, by decide, by decide⟩
  unfold chunkedDecode
  rw [chunkedGo_encodeChunked chunks _ [] 0 h (by omega)]
  simp

/-- Witness for C5: the two-chunk stream `"3\r\nfoo\r\n3\r\nbar\r\n0\r\n\r\n"`
decodes to the concatenation `"foobar"` of its payloads. -/
theorem C5_chunked_roundtrip_witness :
    chunkedDecode (encodeChunked [ ( "foo" ).toList, ( "bar" ).toList ])
      = ([ ( "foo" ).toList, ( "bar" ).toList ] : List (List Char)).flatten :=
  C5_chunked_roundtrip.1 [ ( "foo" ).toList, ( "bar" ).toList ] (by decide)

/-- C3 (code bug): on the raw body `"ff\r\nx"` the decoder's `memcpy` calls are
asked to copy 255 bytes although only 5 input bytes exist at all (and only 1
follows the size line), so the copy reads past the input string and writes past
the `strlen(body)+1 = 6`-byte output allocation. -/
theorem C3_chunk_overcopy :
    chunkedCopyReq (( "ff\r\nx" ).toList) = 255
    ∧ (( "ff\r\nx" ).toList).length = 5
    ∧ (( "ff\r\nx" ).toList).length < chunkedCopyReq (( "ff\r\nx" ).toList) :=
  ⟨by decide, by decide, by decide⟩

/-- C1 (code bug): `http_response_status_code` itself parses 404 from
`"HTTP/1.1 404 Not Found"`, but the `uint8_t status` field of the
`http_response` produced by `http_response_extract` holds 404 mod 256 = 148;
200 survives because it fits in one byte. -/
theorem C1_status_field_truncated :
    http_response_status_code (http_response_extract_header
        (some (( "HTTP/1.1 404 Not Found\r\n\r\nnope" ).toList))) = 404
    ∧ (http_response_extract (some (( "HTTP/1.1 404 Not Found\r\n\r\nnope" ).toList))).status
        = 148
    ∧ (http_response_extract (some (( "HTTP/1.1 200 OK\r\n\r\nHi" ).toList))).status = 200 :=
  ⟨by decide, by decide, by decide⟩

/-- When its allocation succeeds, the allocation-aware header extraction is the
plain one. -/
theorem extract_headerA_allocOk (raw : Option (List Char)) :
    http_response_extract_headerA true raw = http_response_extract_header raw := by
  cases raw with
  | none => rfl
  | some s =>
    simp only [http_response_extract_headerA, http_response_extract_header]
    cases h : strstrIdx s SEP <;> simp [h]

/-- When its allocation succeeds, the allocation-aware body extraction is the
plain one. -/
theorem extract_bodyA_allocOk (raw : Option (List Char)) :
    http_response_extract_bodyA true raw = http_response_extract_body raw := by
  cases raw with
  | none => rfl
  | some s =>
    simp only [http_response_extract_bodyA, http_response_extract_body]
    cases h : strstrIdx s SEP <;> simp [h]

/-- When both framing allocations succeed, the allocation-aware `get` model is
the plain one: `getModel` is exactly the allocation-success slice of
`getModelA`. -/
theorem getModelA_allocOk (env : NetEnvA)
    (h1 : env.headerAllocOk = true) (h2 : env.bodyAllocOk = true) :
    getModelA env = getModel env.toBase := by
  have hx : http_response_extractA env.headerAllocOk env.bodyAllocOk
        (rawOfReads env.reads)
      = http_response_extract (rawOfReads env.reads) := by
    simp only [http_response_extractA, http_response_extract, h1, h2,
      extract_headerA_allocOk, extract_bodyA_allocOk]
  simp only [getModelA, getModel, NetEnvA.toBase, hx]

/-- Witness that `getModelA_allocOk` is satisfiable: a concrete all-success
environment gives the same outcome in both models. -/
theorem getModelA_allocOk_witness :
    getModelA ⟨true, 3, true, true, true, true, true,
        [ ( "HTTP/1.1 200 OK\r\n\r\nHi" ).toList ], true, true⟩
      = getModel (NetEnvA.toBase ⟨true, 3, true, true, true, true, true,
          [ ( "HTTP/1.1 200 OK\r\n\r\nHi" ).toList ], true, true⟩) :=
  getModelA_allocOk ⟨true, 3, true, true, true, true, true,
    [ ( "HTTP/1.1 200 OK\r\n\r\nHi" ).toList ], true, true⟩ rfl rfl

/-- C2 (code bug): when exactly one of the two framing allocations fails while
the other succeeds, `get`'s final check `header == NULL && body == NULL`
(connection.c:358, an AND) does not fire, and `get` returns 0 storing a
partially populated response in `dest` — a non-NULL header with a NULL body
(or, with the failures swapped, a NULL header with a non-NULL body and the
status byte 255 from the failed parse) — the exact outcome the claim and the
spec (`no partial HttpResponse is ever returned`) rule out.  With both
allocations succeeding the same input yields the fully populated response. -/
theorem C2_partial_response_escapes :
    (getModelA ⟨true, 3, true, true, true, true, true,
        [ ( "HTTP/1.1 200 OK\r\n\r\nHi" ).toList ], true, false⟩).result = 0
    ∧ (getModelA ⟨true, 3, true, true, true, true, true,
        [ ( "HTTP/1.1 200 OK\r\n\r\nHi" ).toList ], true, false⟩).dest
        = some ⟨some (( "HTTP/1.1 200 OK" ).toList), none, 200⟩
    ∧ (getModelA ⟨true, 3, true, true, true, true, true,
        [ ( "HTTP/1.1 200 OK\r\n\r\nHi" ).toList ], false, true⟩).result = 0
    ∧ (getModelA ⟨true, 3, true, true, true, true, true,
        [ ( "HTTP/1.1 200 OK\r\n\r\nHi" ).toList ], false, true⟩).dest
        = some ⟨none, some (( "Hi" ).toList), 255⟩
    ∧ (getModelA ⟨true, 3, true, true, true, true, true,
        [ ( "HTTP/1.1 200 OK\r\n\r\nHi" ).toList ], true, true⟩).dest
        = some ⟨some (( "HTTP/1.1 200 OK" ).toList), some (( "Hi" ).toList), 200⟩ := by
  refine ⟨by decide, by decide, by decide, by decide, by decide⟩

/-- The separator search fails when no position carries `CRLFCRLF`. -/
theorem no_sep_strstr_none {raw : List Char}
    (h : ∀ i < raw.length, (raw.drop i).take 4 ≠ SEP) : strstrIdx raw SEP = none := by
  rw [strstrIdx_none_iff (by decide)]
  intro i
  by_cases hi : i < raw.length
  · exact h i hi
  · have hd : raw.drop i = [] := List.drop_eq_nil_of_le (by omega)
    rw [hd]
    decide

/-- C4: for every accumulated byte stream without the 4-byte separator
`CRLFCRLF`, header extraction and body extraction both return NULL, and any
`get` whose accumulated reads form that stream returns -1 and stores nothing
in `dest`. -/
theorem C4_missing_separator (raw : List Char) (env : NetEnv)
    (h : ∀ i < raw.length, (raw.drop i).take 4 ≠ SEP) :
    http_response_extract_header (some raw) = none
    ∧ http_response_extract_body (some raw) = none
    ∧ (env.reads.flatten = raw →
        (getModel env).result = -1 ∧ (getModel env).dest = none) := by
  have hn : strstrIdx raw SEP = none := no_sep_strstr_none h
  have hhdr : http_response_extract_header (some raw) = none := by
    simp only [http_response_extract_header]
    rw [hn]
  have hbdy : http_response_extract_body (some raw) = none := by
    simp only [http_response_extract_body]
    rw [hn]
  refine ⟨hhdr, hbdy, fun hjoin => ?_⟩
  have hcond : ((http_response_extract (rawOfReads env.reads)).header.isNone
      && (http_response_extract (rawOfReads env.reads)).body.isNone) = true := by
    have hh : (http_response_extract (rawOfReads env.reads)).header
        = http_response_extract_header (rawOfReads env.reads) := rfl
    have hb : (http_response_extract (rawOfReads env.reads)).body
        = http_response_extract_body (rawOfReads env.reads) := rfl
    rw [hh, hb]
    unfold rawOfReads
    by_cases hr : env.reads = []
    · rw [if_pos hr]
      rfl
    · rw [if_neg hr, hjoin, hhdr, hbdy]
      rfl
  simp only [getModel]
  repeat' split
  all_goals exact ⟨rfl, rfl⟩


/-- Witness for C4: the stream `"hello"` contains no `CRLFCRLF`; framing fails
and `get` with exactly that accumulated stream returns -1 with nothing stored. -/
theorem C4_missing_separator_witness :
    http_response_extract_header (some (( "hello" ).toList)) = none
    ∧ http_response_extract_body (some (( "hello" ).toList)) = none
    ∧ ((⟨true, 3, true, true, true, true, true, [ ( "hello" ).toList ]⟩ : NetEnv).reads.flatten
          = ( "hello" ).toList →
        (getModel ⟨true, 3, true, true, true, true, true, [ ( "hello" ).toList ]⟩).result = -1
        ∧ (getModel ⟨true, 3, true, true, true, true, true, [ ( "hello" ).toList ]⟩).dest
            = none) :=
  C4_missing_separator (( "hello" ).toList)
    ⟨true, 3, true, true, true, true, true, [ ( "hello" ).toList ]⟩ (by decide)

/-- Counterexample to C6: in the response
`"HTTP/1.1 200 OK\r\n\r\nTransfer-Encoding: chunked"` the header block
(`"HTTP/1.1 200 OK"`) contains no occurrence of `Transfer-Encoding: chunked`,
yet the returned body is the chunked-decode result `""` instead of the verbatim
bytes after the separator, because the C code searches the whole response. -/
theorem C6_te_header_scope_counterexample :
    http_response_extract_header
        (some (( "HTTP/1.1 200 OK\r\n\r\nTransfer-Encoding: chunked" ).toList))
      = some (( "HTTP/1.1 200 OK" ).toList)
    ∧ (∀ i < (( "HTTP/1.1 200 OK" ).toList).length,
        ((( "HTTP/1.1 200 OK" ).toList).drop i).take TE.length ≠ TE)
    ∧ http_response_extract_body
        (some (( "HTTP/1.1 200 OK\r\n\r\nTransfer-Encoding: chunked" ).toList))
      = some []
    ∧ ((( "HTTP/1.1 200 OK\r\n\r\nTransfer-Encoding: chunked" ).toList).drop (15 + 4)
        = ( "Transfer-Encoding: chunked" ).toList)
    ∧ some ([] : List Char)
      ≠ some ((( "HTTP/1.1 200 OK\r\n\r\nTransfer-Encoding: chunked" ).toList).drop (15 + 4)) :=
  by decide

/-- C6 amended: chunked decoding is applied iff the WHOLE raw response (not just
the header block) contains the substring `Transfer-Encoding: chunked`; when the
whole response lacks it, the body is verbatim the bytes after the separator. -/
theorem C6_te_whole_response_scope (raw : List Char) (i : Nat)
    (hsep : strstrIdx raw SEP = some i) :
    ((∀ j < raw.length, (raw.drop j).take TE.length ≠ TE) →
      http_response_extract_body (some raw) = some (raw.drop (i + 4)))
    ∧ (∀ j, (raw.drop j).take TE.length = TE →
      http_response_extract_body (some raw) = some (chunkedDecode (raw.drop (i + 4)))) := by
  constructor
  · intro hno
    have hnone : strstrIdx raw TE = none := by
      rw [strstrIdx_none_iff (by decide)]
      intro j
      by_cases hj : j < raw.length
      · exact hno j hj
      · rw [List.drop_eq_nil_of_le (by omega)]
        decide
    simp only [http_response_extract_body, hsep]
    rw [if_pos hnone]
  · intro j hj
    have hsome : ¬ strstrIdx raw TE = none := by
      intro hnone
      rw [strstrIdx_none_iff (by decide)] at hnone
      exact hnone j hj
    simp only [http_response_extract_body, hsep]
    rw [if_neg hsome]

/-- Witness for the amended C6: `"HTTP/1.1 200 OK\r\n\r\nHi"` has its separator
at index 15, contains no `Transfer-Encoding: chunked`, and its body is the
verbatim `"Hi"`. -/
theorem C6_te_whole_response_scope_witness :
    http_response_extract_body (some (( "HTTP/1.1 200 OK\r\n\r\nHi" ).toList))
      = some ((( "HTTP/1.1 200 OK\r\n\r\nHi" ).toList).drop (15 + 4)) :=
  (C6_te_whole_response_scope (( "HTTP/1.1 200 OK\r\n\r\nHi" ).toList) 15 (by decide)).1
    (by decide)

/-- Counterexample to C9: the header block `"HTTP/1.1\r\nX: a b"` has a first
line (`"HTTP/1.1"`, the characters before the first CR) with zero spaces, yet
`http_response_status_code` returns 0 (from `atoi("a")`), not -1, because its
`strchr` space search crosses line boundaries. -/
theorem C9_first_line_counterexample :
    ((( "HTTP/1.1\r\nX: a b" ).toList).takeWhile (· != '\r')).count ' ' = 0
    ∧ http_response_status_code (some (( "HTTP/1.1\r\nX: a b" ).toList)) = 0
    ∧ http_response_status_code (some (( "HTTP/1.1\r\nX: a b" ).toList)) ≠ -1 := by decide

/-- C9 amended: the parse fails with -1 exactly on header blocks with fewer
than two spaces anywhere in the block (not just on the first line); with at
least two spaces, the status token is the text between the first and second
space of the whole block, truncated to at most 3 characters, converted by
`atoi`. -/
theorem C9_status_whole_header (hdr : List Char) :
    (hdr.count ' ' < 2 → http_response_status_code (some hdr) = -1)
    ∧ (2 ≤ hdr.count ' ' → ∃ i1 j,
        strchrIdx hdr ' ' = some i1 ∧ strchrIdx (hdr.drop (i1 + 1)) ' ' = some j
        ∧ (∀ x ∈ hdr.take i1, x ≠ ' ') ∧ (∀ x ∈ (hdr.drop (i1 + 1)).take j, x ≠ ' ')
        ∧ http_response_status_code (some hdr)
            = atoiModel ((hdr.drop (i1 + 1)).take (min j 3))) := by
  constructor
  · intro hcount
    cases h1 : strchrIdx hdr ' ' with
    | none => simp only [http_response_status_code, h1]
    | some i1 =>
      obtain ⟨hpre, hdec⟩ := strchrIdx_spec h1
      have hc : hdr.count ' '
          = (hdr.take i1).count ' ' + (' ' :: hdr.drop (i1 + 1)).count ' ' := by
        conv_lhs => rw [← List.take_append_drop i1 hdr]
        rw [List.count_append, hdec]
      have hpre0 : (hdr.take i1).count ' ' = 0 := by
        rw [List.count_eq_zero]
        intro hmem
        exact hpre ' ' hmem rfl
      have hcons : (' ' :: hdr.drop (i1 + 1)).count ' '
          = (hdr.drop (i1 + 1)).count ' ' + 1 := by
        simp [List.count_cons]
      have h0 : (hdr.drop (i1 + 1)).count ' ' = 0 := by
        rw [hpre0, hcons] at hc
        omega
      have h2 : strchrIdx (hdr.drop (i1 + 1)) ' ' = none := by
        rw [strchrIdx_none_iff]
        rw [List.count_eq_zero] at h0
        intro x hx hxe
        exact h0 (hxe ▸ hx)
      simp only [http_response_status_code, h1, h2]
  · intro hcount
    have hmem1 : ' ' ∈ hdr := by
      by_contra hnot
      have := List.count_eq_zero.mpr hnot
      omega
    cases h1 : strchrIdx hdr ' ' with
    | none =>
      rw [strchrIdx_none_iff] at h1
      exact absurd rfl (h1 ' ' hmem1)
    | some i1 =>
      obtain ⟨hpre, hdec⟩ := strchrIdx_spec h1
      have hc : hdr.count ' '
          = (hdr.take i1).count ' ' + (' ' :: hdr.drop (i1 + 1)).count ' ' := by
        conv_lhs => rw [← List.take_append_drop i1 hdr]
        rw [List.count_append, hdec]
      have hcons : (' ' :: hdr.drop (i1 + 1)).count ' '
          = (hdr.drop (i1 + 1)).count ' ' + 1 := by
        simp [List.count_cons]
      have hpre0 : (hdr.take i1).count ' ' = 0 := by
        rw [List.count_eq_zero]
        intro hmem
        exact hpre ' ' hmem rfl
      have hmem2 : ' ' ∈ hdr.drop (i1 + 1) := by
        by_contra hnot
        have h0 := List.count_eq_zero.mpr hnot
        rw [hpre0, hcons, h0] at hc
        omega
      cases h2 : strchrIdx (hdr.drop (i1 + 1)) ' ' with
      | none =>
        rw [strchrIdx_none_iff] at h2
        exact absurd rfl (h2 ' ' hmem2)
      | some j =>
        obtain ⟨hpre2, -⟩ := strchrIdx_spec h2
        refine ⟨i1, j, ?_, ?_, hpre, hpre2, ?_⟩
        · simp [h1]
        · simp [h2]
        · simp only [http_response_status_code, h1, h2]

/-- Witness for the amended C9: `"HTTP/1.1"` contains fewer than two spaces, so
status-line parsing returns -1. -/
theorem C9_status_whole_header_witness :
    http_response_status_code (some (( "HTTP/1.1" ).toList)) = -1 :=
  (C9_status_whole_header (( "HTTP/1.1" ).toList)).1 (by decide)

/-! ### Accumulation-loop lemmas -/

/-- After any append the loop's invariant `total < capacity` holds: the grown
capacity strictly exceeds the new length, leaving room for the final NUL. -/
theorem accumStep_inv (st : AccState) (chunk : List Char) :
    (accumStep st chunk).total < (accumStep st chunk).capacity := by
  simp only [accumStep]
  by_cases h0 : st.capacity = 0
  · rw [if_pos h0]
    by_cases h1 : (4096 : Nat) ≤ st.total + chunk.length
    · rw [if_pos h1]
      omega
    · rw [if_neg h1]
      omega
  · rw [if_neg h0]
    by_cases h1 : st.capacity * 2 ≤ st.total + chunk.length
    · rw [if_pos h1]
      omega
    · rw [if_neg h1]
      omega

/-- The invariant `total < capacity` is preserved by the rest of the loop. -/
theorem accum_foldl_inv : ∀ (reads : List (List Char)) (st : AccState),
    st.total < st.capacity →
    (reads.foldl accumStep st).total < (reads.foldl accumStep st).capacity := by
  intro reads
  induction reads with
  | nil => intro st h; exact h
  | cons c cs ih =>
    intro st _
    exact ih (accumStep st c) (accumStep_inv st c)

/-- The loop appends every read verbatim: content is the running concatenation
and `total` is its length. -/
theorem accum_content : ∀ (reads : List (List Char)) (st : AccState),
    (reads.foldl accumStep st).response = st.response ++ reads.flatten
    ∧ (reads.foldl accumStep st).total = st.total + reads.flatten.length := by
  intro reads
  induction reads with
  | nil => intro st; simp
  | cons c cs ih =>
    intro st
    have h := ih (accumStep st c)
    constructor
    · rw [List.foldl_cons, h.1]
      simp [accumStep, List.append_assoc]
    · rw [List.foldl_cons, h.2]
      simp [accumStep]
      omega

/-- C7: for every sequence of nonempty reads whose total length exceeds the
initial 4096-byte capacity, the final buffer content is the exact concatenation
of the reads, `total` is its length, the terminating NUL position `total` is
strictly inside the allocated capacity, and after every intermediate append the
bytes written (positions up to `total`) also fit strictly inside the capacity
grown for that append. -/
theorem C7_accumulation (reads : List (List Char))
    (hne : ∀ r ∈ reads, r ≠ []) (hbig : 4096 < reads.flatten.length) :
    (accumRun reads).response = reads.flatten
    ∧ (accumRun reads).total = reads.flatten.length
    ∧ (accumRun reads).total < (accumRun reads).capacity
    ∧ ∀ pre c suf, reads = pre ++ c :: suf →
        (accumRun (pre ++ [ c ])).total < (accumRun (pre ++ [ c ])).capacity := by
  have hcontent := accum_content reads { response := [], total := 0, capacity := 0 }
  refine ⟨by simpa using hcontent.1, by simpa using hcontent.2, ?_, ?_⟩
  · cases reads with
    | nil => simp at hbig
    | cons c cs =>
      show ((c :: cs).foldl accumStep { response := [], total := 0, capacity := 0 }).total < _
      rw [List.foldl_cons]
      exact accum_foldl_inv cs _ (accumStep_inv { response := [], total := 0, capacity := 0 } c)
  · intro pre c suf _
    unfold accumRun
    rw [List.foldl_append]
    simp only [List.foldl_cons, List.foldl_nil]
    exact accumStep_inv _ _

/-- Nonempty replications, without evaluating the list. -/
theorem replicate_ne_nil_of_pos (n : Nat) (hn : 0 < n) (a : Char) :
    List.replicate n a ≠ [] := by
  intro h
  have h2 := congrArg List.length h
  rw [List.length_replicate] at h2
  simp at h2
  omega

/-- Witness for C7: two reads of 4000 and 97 bytes exceed 4096 in total, and
the final buffer equals their concatenation. -/
theorem C7_accumulation_witness :
    4096 < ([ List.replicate 4000 'a', List.replicate 97 'b' ] : List (List Char)).flatten.length
    ∧ (accumRun [ List.replicate 4000 'a', List.replicate 97 'b' ]).response
        = ([ List.replicate 4000 'a', List.replicate 97 'b' ] : List (List Char)).flatten
    ∧ (accumRun [ List.replicate 4000 'a', List.replicate 97 'b' ]).total
        < (accumRun [ List.replicate 4000 'a', List.replicate 97 'b' ]).capacity := by
  have hflat : ([ List.replicate 4000 'a', List.replicate 97 'b' ] : List (List Char)).flatten
      = List.replicate 4000 'a' ++ List.replicate 97 'b' := by
    rw [List.flatten_cons, List.flatten_cons, List.flatten_nil, List.append_nil]
  have hbig : 4096
      < ([ List.replicate 4000 'a', List.replicate 97 'b' ] : List (List Char)).flatten.length := by
    rw [hflat, List.length_append, List.length_replicate, List.length_replicate]
    omega
  have h := C7_accumulation [ List.replicate 4000 'a', List.replicate 97 'b' ]
    (by
      intro r hr
      simp only [List.mem_cons, List.not_mem_nil, or_false] at hr
      rcases hr with rfl | rfl <;> exact replicate_ne_nil_of_pos _ (by omega) _)
    hbig
  exact ⟨hbig, h.1, h.2.2.1⟩

/-- Counterexample to C8: with working context creation and socket creation but
failing resolution, the trace contains a `sockCreate` event although resolution
failed (no `resolve true` ever occurs) — the socket is created before
resolution is even attempted, then closed (twice). -/
theorem C8_socket_before_resolution_counterexample :
    (getModel ⟨true, 3, false, true, true, true, true, []⟩).result = -1
    ∧ NetEvent.resolve false ∈ (getModel ⟨true, 3, false, true, true, true, true, []⟩).trace
    ∧ (∀ e ∈ (getModel ⟨true, 3, false, true, true, true, true, []⟩).trace,
        e ≠ NetEvent.resolve true)
    ∧ NetEvent.sockCreate 3 ∈ (getModel ⟨true, 3, false, true, true, true, true, []⟩).trace
    ∧ (getModel ⟨true, 3, false, true, true, true, true, []⟩).trace
        = [ NetEvent.sockCreate 3, NetEvent.resolve false, NetEvent.sockClose 3,
            NetEvent.sockClose 3 ] := by decide

/-- C8 amended: whenever resolution fails (and context/socket creation succeed),
`get` returns -1 and yields no response, but the socket descriptor has already
been created before resolution — the trace is socket creation, failed
resolution, then two closes of that descriptor. -/
theorem C8_socket_created_before_resolution (env : NetEnv)
    (hctx : env.ctxOk = true) (hfd : 0 ≤ env.sockfd) (hres : env.resolveOk = false) :
    (getModel env).trace
      = [ NetEvent.sockCreate env.sockfd, NetEvent.resolve false,
          NetEvent.sockClose env.sockfd, NetEvent.sockClose env.sockfd ]
    ∧ (getModel env).result = -1 ∧ (getModel env).dest = none := by
  have hfc : fconnectModel env
      = (-1, [ NetEvent.resolve false, NetEvent.sockClose env.sockfd ]) := by
    unfold fconnectModel
    rw [if_neg (by omega), if_pos hres]
  simp only [getModel]
  rw [if_neg (by simp [hctx])]
  rw [if_pos (show (fconnectModel env).1 < 0 by rw [hfc]; exact (by norm_num : (-1 : Int) < 0))]
  refine ⟨?_, rfl, rfl⟩
  rw [if_pos hfd, hfc]
  simp

/-- Witness for the amended C8: the concrete failing-resolution environment
produces exactly that trace and result. -/
theorem C8_socket_created_before_resolution_witness :
    (getModel ⟨true, 3, false, true, true, true, true, []⟩).trace
      = [ NetEvent.sockCreate 3, NetEvent.resolve false,
          NetEvent.sockClose 3, NetEvent.sockClose 3 ]
    ∧ (getModel ⟨true, 3, false, true, true, true, true, []⟩).result = -1
    ∧ (getModel ⟨true, 3, false, true, true, true, true, []⟩).dest = none :=
  C8_socket_created_before_resolution ⟨true, 3, false, true, true, true, true, []⟩
    rfl (by decide) rfl

/-- C10: when the connection succeeds but the peer closes before any byte
arrives, the raw response handed to the framer is NULL; every framing function
is total on NULL (returning NULL or -1 without touching it, the extract record
being all-NULL with status byte 255 from the -1), and `get` returns -1 leaving
`dest` untouched. -/
theorem C10_null_raw_total (env : NetEnv)
    (hctx : env.ctxOk = true) (hfd : 0 ≤ env.sockfd) (hres : env.resolveOk = true)
    (hpton : env.ptonOk = true) (hconn : env.connectOk = true) (hssl : env.sslOk = true)
    (hw : env.writeOk = true) (hreads : env.reads = []) :
    (getModel env).framed = some none
    ∧ (getModel env).result = -1
    ∧ (getModel env).dest = none
    ∧ http_response_extract_header none = none
    ∧ http_response_extract_body none = none
    ∧ http_response_status_code none = -1
    ∧ http_response_extract none = ⟨none, none, 255⟩ := by
  have hfc : fconnectModel env = (0, [ NetEvent.resolve true ]) := by
    unfold fconnectModel
    rw [if_neg (by omega), if_neg (by simp [hres]), if_neg (by simp [hpton]), if_pos hconn]
  have hraw : rawOfReads env.reads = none := by
    rw [hreads]
    rfl
  simp only [getModel]
  rw [if_neg (by simp [hctx])]
  rw [if_neg (show ¬ ((fconnectModel env).1 < 0) by rw [hfc]; norm_num)]
  rw [if_neg (by simp [hssl]), if_neg (by simp [hw]), hraw]
  rw [if_pos (show ((http_response_extract none).header.isNone
      && (http_response_extract none).body.isNone) = true from rfl)]
  exact ⟨rfl, rfl, rfl, rfl, rfl, rfl, rfl⟩

/-- Witness for C10: the concrete all-success environment with no reads. -/
theorem C10_null_raw_total_witness :
    (getModel ⟨true, 3, true, true, true, true, true, []⟩).framed = some none
    ∧ (getModel ⟨true, 3, true, true, true, true, true, []⟩).result = -1
    ∧ (getModel ⟨true, 3, true, true, true, true, true, []⟩).dest = none
    ∧ http_response_extract_header none = none
    ∧ http_response_extract_body none = none
    ∧ http_response_status_code none = -1
    ∧ http_response_extract none = ⟨none, none, 255⟩ :=
  C10_null_raw_total ⟨true, 3, true, true, true, true, true, []⟩
    rfl (by decide) rfl rfl rfl rfl rfl rfl
